import Mathlib

/-!
Verification of the TD(0) n-tuple learning agent of `agent.h`
(2584-variant of the 2048 framework, class `weight_agent`).

Shallow embedding conventions:
* C++ `float` arithmetic is modelled by exact rational arithmetic (`ℚ`).
* A board is a total read function `Nat → Nat` (cell index ↦ tile rank),
  mirroring `board::operator()(int)`.
* A weight table (`class weight`, declared in the absent `weight.h`) is a
  recorded size together with a total entry function; `std::vector<weight> net`
  is a `List Weight`, with out-of-range reads going to a default table, and
  `net[i][k]` reading the entry function at `k`.
* The board collaborator's `slide` primitive is kept abstract: theorems
  quantify over an arbitrary `SlideFn`, matching the "external collaborator"
  status of `board.h`.
-/

namespace TCG2584

/-- A board: cell index (0–15 used) to tile rank, as read by `board::operator()`. -/
abbrev Board : Type := Nat → Nat

/-- The default-constructed board (`board next_board;`).
Modelled from the spec: `board.h` is absent; rank 0 denotes an empty cell,
and a fresh board is all-empty. -/
def dB : Board := fun _ => 0

/-- One weight table: its allocated size and its entries (`weight` of the
absent `weight.h`, a dense array of floats indexed by feature index). -/
structure Weight where
  size : Nat
  data : Nat → ℚ

/-- A freshly constructed weight table of `n` entries.
Modelled from the spec: `weight.h` is absent; tables are
"freshly zero-initialized" at construction. -/
def newWeight (n : Nat) : Weight := ⟨n, fun _ => 0⟩

/-- The default table used for (UB in C++) out-of-range `net[i]` reads. -/
def w0 : Weight := ⟨0, fun _ => 0⟩

/-- The weight store `std::vector<weight> net`. -/
abbrev Net : Type := List Weight

/-- `net[i]` (total, via the default table). -/
def wAt (net : Net) (i : Nat) : Weight := (net[i]?).getD w0

/-- Add `δ` to entry `idx` of table `w` (`net[i][idx] += adjust`). -/
def bumpAt (w : Weight) (idx : Nat) (δ : ℚ) : Weight :=
  ⟨w.size, fun k => if k = idx then w.data k + δ else w.data k⟩

/-- `net[i][idx] += δ` as a whole-store operation. -/
def setBump (net : Net) (i idx : Nat) (δ : ℚ) : Net :=
  net.set i (bumpAt (wAt net i) idx δ)

/-- `weight_agent::v_value`: sum of the 8 tuple lookups (4 rows then 4
columns), each feature index the base-25 encoding of 4 cell ranks,
most-significant cell first.  Direct transcription of the source. -/
def v_value (net : Net) (after : Board) : ℚ :=
  0
  + (wAt net 0).data (after 0 * 25 * 25 * 25 + after 1 * 25 * 25 + after 2 * 25 + after 3)
  + (wAt net 1).data (after 4 * 25 * 25 * 25 + after 5 * 25 * 25 + after 6 * 25 + after 7)
  + (wAt net 2).data (after 8 * 25 * 25 * 25 + after 9 * 25 * 25 + after 10 * 25 + after 11)
  + (wAt net 3).data (after 12 * 25 * 25 * 25 + after 13 * 25 * 25 + after 14 * 25 + after 15)
  + (wAt net 4).data (after 0 * 25 * 25 * 25 + after 4 * 25 * 25 + after 8 * 25 + after 12)
  + (wAt net 5).data (after 1 * 25 * 25 * 25 + after 5 * 25 * 25 + after 9 * 25 + after 13)
  + (wAt net 6).data (after 2 * 25 * 25 * 25 + after 6 * 25 * 25 + after 10 * 25 + after 14)
  + (wAt net 7).data (after 3 * 25 * 25 * 25 + after 7 * 25 * 25 + after 11 * 25 + after 15)

/-- `weight_agent::adjust_table`: one whole-board error, one shared delta,
added to each of the 8 addressed entries.  Direct transcription. -/
def adjust_table (α : ℚ) (net : Net) (after : Board) (target : ℚ) : Net :=
  let current := v_value net after
  let error := target - current
  let adjust := α * error
  let n0 := setBump net 0 (after 0 * 25 * 25 * 25 + after 1 * 25 * 25 + after 2 * 25 + after 3) adjust
  let n1 := setBump n0 1 (after 4 * 25 * 25 * 25 + after 5 * 25 * 25 + after 6 * 25 + after 7) adjust
  let n2 := setBump n1 2 (after 8 * 25 * 25 * 25 + after 9 * 25 * 25 + after 10 * 25 + after 11) adjust
  let n3 := setBump n2 3 (after 12 * 25 * 25 * 25 + after 13 * 25 * 25 + after 14 * 25 + after 15) adjust
  let n4 := setBump n3 4 (after 0 * 25 * 25 * 25 + after 4 * 25 * 25 + after 8 * 25 + after 12) adjust
  let n5 := setBump n4 5 (after 1 * 25 * 25 * 25 + after 5 * 25 * 25 + after 9 * 25 + after 13) adjust
  let n6 := setBump n5 6 (after 2 * 25 * 25 * 25 + after 6 * 25 * 25 + after 10 * 25 + after 14) adjust
  let n7 := setBump n6 7 (after 3 * 25 * 25 * 25 + after 7 * 25 * 25 + after 11 * 25 + after 15) adjust
  n7

/-- The agent's mutable state: weight store, learning rate, and the two
episode-history vectors (`weight_agent`'s fields). -/
structure WeightAgent where
  net : Net
  alpha : ℚ
  reward_history : List ℤ
  board_history : List Board

/-- `weight_agent::open_episode`: clear both history vectors. -/
def open_episode (a : WeightAgent) : WeightAgent :=
  { a with reward_history := [], board_history := [] }

/-- The backward loop of `close_episode`
(`for(int t=board_history.size()-2;t>=0;t--) ...`): with fuel `k+1`
process index `t = k` and recurse, so fuel `n-1` runs `t = n-2, …, 0`. -/
def tdSweep (α : ℚ) (rh : List ℤ) (bh : List Board) : Net → Nat → Net
  | net, 0 => net
  | net, t + 1 =>
    tdSweep α rh bh
      (adjust_table α net (bh.getD t dB)
        (((rh.getD (t + 1) 0 : ℤ) : ℚ) + v_value net (bh.getD (t + 1) dB))) t

/-- `weight_agent::close_episode`: no-op on empty history or zero alpha;
otherwise terminal update toward 0 then the backward bootstrapped sweep. -/
def close_episode (a : WeightAgent) : WeightAgent :=
  if a.board_history.isEmpty then a
  else if a.alpha = 0 then a
  else
    let net1 := adjust_table a.alpha a.net
      (a.board_history.getD (a.board_history.length - 1) dB) 0
    let net2 := tdSweep a.alpha a.reward_history a.board_history net1
      (a.board_history.length - 1)
    { a with net := net2 }

/-- `weight_agent::init_weights`: eight `net.emplace_back(25*25*25*25)`. -/
def init_weights (info : String) (a : WeightAgent) : WeightAgent :=
  let n0 := a.net.concat (newWeight (25 * 25 * 25 * 25))
  let n1 := n0.concat (newWeight (25 * 25 * 25 * 25))
  let n2 := n1.concat (newWeight (25 * 25 * 25 * 25))
  let n3 := n2.concat (newWeight (25 * 25 * 25 * 25))
  let n4 := n3.concat (newWeight (25 * 25 * 25 * 25))
  let n5 := n4.concat (newWeight (25 * 25 * 25 * 25))
  let n6 := n5.concat (newWeight (25 * 25 * 25 * 25))
  let n7 := n6.concat (newWeight (25 * 25 * 25 * 25))
  { a with net := n7 }

/-- The board collaborator's move primitive, kept abstract: `slide b op`
returns the reward reported by `after.slide(op)` together with the final
value of the mutated copy `after` (reward `-1` is the illegal sentinel). -/
abbrev SlideFn : Type := Board → Nat → ℤ × Board

/-- The opaque action value returned to the caller.
Modelled from the spec: `action.h` is absent; the policy only ever builds
`action::slide(code)`, and `action::slide(-1)` is the null/no-op action. -/
inductive GameAction where
  | slide (code : ℤ)
deriving DecidableEq

/-- The null/no-op action (spec §4.2, §7: "If no move is legal, return a
null/no-op action"; the source returns `action::slide(-1)` there). -/
def nullAction : GameAction := GameAction.slide (-1)

/-- `std::numeric_limits<float>::max()` = (2 − 2⁻²³)·2¹²⁷, exactly. -/
def fltMax : ℚ := 2 ^ 128 - 2 ^ 104

/-- The selection loop's running state: `best_move`, `max_reward`,
`max_val`, `next_board` of `weight_agent::take_action`. -/
structure Sel where
  best_move : ℤ
  max_reward : ℤ
  max_val : ℚ
  next_board : Board

/-- Initial selection state: `best_move=-1`, `max_reward=-1`,
`max_val=-FLT_MAX`, default-constructed `next_board`. -/
def initSel : Sel := ⟨-1, -1, -fltMax, dB⟩

/-- One iteration of the direction loop: simulate `op` on a copy, skip on
the `-1` sentinel, otherwise adopt `op` iff `r + val > max_reward + max_val`. -/
def selStep (slide : SlideFn) (net : Net) (before : Board) (s : Sel) (op : Nat) : Sel :=
  let r := (slide before op).1
  let after := (slide before op).2
  if r = -1 then s
  else
    let val := v_value net after
    if (r : ℚ) + val > (s.max_reward : ℚ) + s.max_val then ⟨(op : ℤ), r, val, after⟩
    else s

/-- The `for (int op=0;op<4;op++)` loop over a list of opcodes. -/
def selLoop (slide : SlideFn) (net : Net) (before : Board) (s : Sel) (ops : List Nat) : Sel :=
  ops.foldl (selStep slide net before) s

/-- `weight_agent::take_action`: run the selection loop over opcodes
0,1,2,3; if a move was selected, append its reward and afterstate to the
histories; return `action::slide(best_move)`.  The third component is the
final value of the caller's board (threaded explicitly so the frame claim
is expressible): the body only ever copies it. -/
def take_action (slide : SlideFn) (a : WeightAgent) (before : Board) :
    GameAction × WeightAgent × Board :=
  let s := selLoop slide a.net before initSel [0, 1, 2, 3]
  if s.best_move ≠ -1 then
    (GameAction.slide s.best_move,
     { a with reward_history := a.reward_history ++ [s.max_reward],
              board_history := a.board_history ++ [s.next_board] },
     before)
  else (GameAction.slide s.best_move, a, before)

/-! Persistence (spec §4.5/§6).  The stream contents are modelled as parsed
data: a table count followed by the tables' entry lists. -/

/-- Serialized form of one table: its entries in index order.
Modelled from the spec: `weight.h`'s stream inserter is absent; a table is
persisted as its entries "in table order". -/
def serWeight (w : Weight) : List ℚ := (List.range w.size).map w.data

/-- Deserialize one table from its entry list.
Modelled from the spec: `weight.h`'s stream extractor is absent; reading a
persisted table yields exactly the recorded entries. -/
def deserWeight (l : List ℚ) : Weight := ⟨l.length, fun i => l.getD i 0⟩

/-- `weight_agent::save_weights`: write the table count, then each table. -/
def save_weights (net : Net) : Nat × List (List ℚ) := (net.length, net.map serWeight)

/-- `weight_agent::load_weights`: read the count, `net.resize(size)`, then
read each of the `size` tables from the stream in order. -/
def load_weights (f : Nat × List (List ℚ)) : Net :=
  (List.range f.1).map fun i => deserWeight (f.2.getD i [])

/-! Spec-side descriptions used to state the claims. -/

/-- The fixed 8 tuples of the spec: the 4 rows then the 4 columns. -/
def tuples : List (List Nat) :=
  [[0, 1, 2, 3], [4, 5, 6, 7], [8, 9, 10, 11], [12, 13, 14, 15],
   [0, 4, 8, 12], [1, 5, 9, 13], [2, 6, 10, 14], [3, 7, 11, 15]]

/-- Base-25 positional encoding of a tuple's cell ranks, most-significant
cell first (spec §3, "Feature index"). -/
def featIndex (cells : List Nat) (b : Board) : Nat :=
  cells.foldl (fun acc c => acc * 25 + b c) 0

/-- Spec-side value estimate: the sum over the 8 tuples of the weight at
that tuple's feature index (spec §3 "Value estimate", §4.1). -/
def specValue (net : Net) (b : Board) : ℚ :=
  ((List.range 8).map fun i => (wAt net i).data (featIndex (tuples.getD i []) b)).sum

/-- Spec-side backward TD pass (spec §4.4), by structural recursion on the
trajectory of (reward, afterstate) pairs: the terminal afterstate is
adjusted toward target 0; an interior afterstate is adjusted toward
`r[t+1] + v(s[t+1])`, where `v` is evaluated against the store as already
updated by all later-in-episode adjustments. -/
def specLearn (α : ℚ) (net : Net) : List (ℤ × Board) → Net
  | [] => net
  | [(_, s)] => adjust_table α net s 0
  | (_, s) :: (r1, s1) :: rest =>
    let net1 := specLearn α net ((r1, s1) :: rest)
    adjust_table α net1 s (((r1 : ℤ) : ℚ) + v_value net1 s1)

/-- Reward reported by simulating `op` from `before`. -/
def moveR (slide : SlideFn) (before : Board) (op : Nat) : ℤ := (slide before op).1

/-- Afterstate produced by simulating `op` from `before`. -/
def moveB (slide : SlideFn) (before : Board) (op : Nat) : Board := (slide before op).2

/-- A direction is legal when its simulated reward is not the `-1` sentinel. -/
def legalMove (slide : SlideFn) (before : Board) (op : Nat) : Prop :=
  moveR slide before op ≠ -1

instance (slide : SlideFn) (before : Board) (op : Nat) :
    Decidable (legalMove slide before op) := by
  unfold legalMove; infer_instance

/-- The score of one direction: immediate reward plus the afterstate's value. -/
def moveScore (slide : SlideFn) (net : Net) (before : Board) (op : Nat) : ℚ :=
  ((moveR slide before op : ℤ) : ℚ) + v_value net (moveB slide before op)

/-- Invariant of the direction loop after the opcodes `< k` have been
examined: either nothing legal was seen and the state is still the initial
one, or the state records the first-evaluated maximiser `m` of
reward-plus-value among the legal opcodes `< k`. -/
def selInv (slide : SlideFn) (net : Net) (before : Board) (k : Nat) (s : Sel) : Prop :=
  (s.best_move = -1 ∧ s.max_reward = -1 ∧ s.max_val = -fltMax ∧
    ∀ op, op < k → ¬legalMove slide before op)
  ∨ ∃ m, m < k ∧ legalMove slide before m ∧ s.best_move = (m : ℤ) ∧
      s.max_reward = moveR slide before m ∧
      s.max_val = v_value net (moveB slide before m) ∧
      s.next_board = moveB slide before m ∧
      (∀ op, op < m → legalMove slide before op →
        moveScore slide net before op < moveScore slide net before m) ∧
      (∀ op, m < op → op < k → legalMove slide before op →
        moveScore slide net before op ≤ moveScore slide net before m)

/-- Slide used in the C4 counterexample: direction 0 is legal with reward
0, the rest are illegal. -/
def c4Slide : SlideFn := fun b op => if op = 0 then (0, b) else (-1, b)

/-- Store used in the C4 counterexample: every entry so negative that the
single legal direction scores below the `-FLT_MAX` initialization. -/
def c4Net : Net := List.replicate 8 ⟨390625, fun _ => -(2 ^ 128 : ℚ)⟩

/-- Slide used in the C4 witness: direction 0 legal with reward 5. -/
def w4Slide : SlideFn := fun b op => if op = 0 then (5, b) else (-1, b)

/-! ## Helper lemmas -/

theorem wAt_set_self (net : Net) (i : Nat) (w : Weight) (h : i < net.length) :
    wAt (net.set i w) i = w := by
  simp [wAt, List.getElem?_set_self', List.getElem?_eq_getElem h]

theorem wAt_set_ne (net : Net) (i j : Nat) (w : Weight) (h : j ≠ i) :
    wAt (net.set j w) i = wAt net i := by
  simp [wAt, List.getElem?_set_ne h]

theorem wAt_setBump_self (net : Net) (i idx : Nat) (δ : ℚ) (h : i < net.length) :
    wAt (setBump net i idx δ) i = bumpAt (wAt net i) idx δ :=
  wAt_set_self _ _ _ h

theorem wAt_setBump_ne (net : Net) (i j idx : Nat) (δ : ℚ) (h : j ≠ i) :
    wAt (setBump net j idx δ) i = wAt net i :=
  wAt_set_ne _ _ _ _ h

theorem length_setBump (net : Net) (j idx : Nat) (δ : ℚ) :
    (setBump net j idx δ).length = net.length :=
  List.length_set _ _ _

theorem wAt_setBump_self8 (net : Net) (i idx : Nat) (δ : ℚ) (h8 : 8 ≤ net.length)
    (hi : i < 8) :
    wAt (setBump net i idx δ) i = bumpAt (wAt net i) idx δ := by
  apply wAt_setBump_self
  omega

theorem tdSweep_cons (α : ℚ) (r0 : ℤ) (rh : List ℤ) (s0 : Board) (bh : List Board)
    (k : Nat) :
    ∀ net : Net,
      tdSweep α (r0 :: rh) (s0 :: bh) net (k + 1) =
        adjust_table α (tdSweep α rh bh net k) s0
          (((rh.getD 0 0 : ℤ) : ℚ) + v_value (tdSweep α rh bh net k) (bh.getD 0 dB)) := by
  induction k with
  | zero =>
    intro net
    simp [tdSweep]
  | succ k ih =>
    intro net
    conv_lhs => rw [tdSweep]
    rw [ih]
    conv_rhs => rw [tdSweep]
    simp [List.getD_cons_succ]

theorem specLearn_eq_sweep (α : ℚ) :
    ∀ (bh : List Board) (rh : List ℤ) (net : Net),
      rh.length = bh.length → bh ≠ [] →
      specLearn α net (rh.zip bh) =
        tdSweep α rh bh
          (adjust_table α net (bh.getD (bh.length - 1) dB) 0) (bh.length - 1) := by
  intro bh
  induction bh with
  | nil => intro rh net _ hne; exact absurd rfl hne
  | cons s0 bh ih =>
    intro rh net hlen _
    match rh, hlen with
    | r0 :: rh, hlen =>
      match bh, rh, hlen, ih with
      | [], [], _, _ => simp [specLearn, tdSweep]
      | s1 :: bh, r1 :: rh, hlen, ih =>
        have hlen1 : (r1 :: rh).length = (s1 :: bh).length := by
          simpa using hlen
        have hk : (s0 :: s1 :: bh).length - 1 = bh.length + 1 := by simp
        rw [hk, tdSweep_cons]
        have hnet :
            adjust_table α net ((s0 :: s1 :: bh).getD (s0 :: s1 :: bh).length.pred dB) 0 =
              adjust_table α net ((s1 :: bh).getD (s1 :: bh).length.pred dB) 0 := by
          simp
        have hk2 : bh.length = (s1 :: bh).length - 1 := by simp
        simp only [List.length_cons, Nat.pred_succ] at hnet ⊢
        rw [show (s0 :: s1 :: bh).getD (bh.length + 1) dB =
              (s1 :: bh).getD (bh.length) dB from List.getD_cons_succ ..]
        rw [show adjust_table α net ((s1 :: bh).getD (bh.length) dB) 0 =
              adjust_table α net ((s1 :: bh).getD ((s1 :: bh).length - 1) dB) 0 by simp]
        rw [hk2, ← ih (r1 :: rh) net hlen1 (by simp)]
        simp only [specLearn, List.zip]
        rfl

/-! ## Claim theorems -/

/-- C1: with a non-empty trajectory and nonzero learning rate,
`close_episode` performs exactly the spec's backward pass: terminal
afterstate toward target 0 first, then each earlier afterstate toward
`r[t+1] + v(s[t+1])` evaluated against the live, already-updated store;
on a length-1 trajectory only the terminal update happens. -/
theorem close_episode_td (a : WeightAgent) (hne : a.board_history ≠ [])
    (hα : a.alpha ≠ 0) (hlen : a.reward_history.length = a.board_history.length) :
    (close_episode a).net =
      specLearn a.alpha a.net (a.reward_history.zip a.board_history) ∧
    ∀ b, a.board_history = [b] →
      (close_episode a).net = adjust_table a.alpha a.net b 0 := by
  have hmain : (close_episode a).net =
      specLearn a.alpha a.net (a.reward_history.zip a.board_history) := by
    have hie : a.board_history.isEmpty = false := by
      simpa [List.isEmpty_iff] using hne
    simp only [close_episode, hie, Bool.false_eq_true, if_false, hα, if_neg hα]
    rw [specLearn_eq_sweep a.alpha a.board_history a.reward_history a.net hlen hne]
  refine ⟨hmain, ?_⟩
  intro b hb
  rw [hmain, hb]
  rw [hb] at hlen
  match h : a.reward_history, hlen with
  | [r], _ => simp [specLearn]

/-- C3: for every board, `v_value` equals the spec-side sum over the 8
tuples of the weight entry at that tuple's base-25 feature index
(most-significant cell first); it is a pure function of the store and the
board. -/
theorem v_value_eq_specValue (net : Net) (b : Board) :
    v_value net b = specValue net b := by
  simp [v_value, specValue, tuples, featIndex, List.range_succ]
  ring_nf

/-- C6: closing an episode with an empty trajectory, or with learning rate
zero, leaves the agent (in particular every weight-table entry) unchanged. -/
theorem close_episode_noop (net : Net) (α : ℚ) (rh : List ℤ) (bh : List Board) :
    close_episode ⟨net, α, rh, []⟩ = ⟨net, α, rh, []⟩ ∧
    close_episode ⟨net, 0, rh, bh⟩ = ⟨net, 0, rh, bh⟩ := by
  constructor
  · simp [close_episode]
  · cases bh <;> simp [close_episode]

/-- C10: `init_weights` ignores its string argument entirely and appends
exactly 8 fresh zero tables of 25⁴ = 390625 entries each to the existing
net (growing it, not replacing it). -/
theorem init_weights_spec (info : String) (a : WeightAgent) :
    init_weights info a = { a with net := a.net ++ List.replicate 8 (newWeight 390625) } ∧
    (init_weights info a).net.length = a.net.length + 8 := by
  constructor
  · norm_num [init_weights, List.concat_eq_append, List.replicate_succ, List.append_assoc]
  · norm_num [init_weights]

/-- C7: `take_action` never mutates the caller's board: the final value of
the board variable threaded through the call equals the input board. -/
theorem take_action_frame (slide : SlideFn) (a : WeightAgent) (before : Board) :
    (take_action slide a before).2.2 = before := by
  unfold take_action
  dsimp only
  split <;> rfl

/-- C5: when all 4 simulated directions report the illegal sentinel,
`take_action` returns the null action and leaves the agent (in particular
both history vectors) untouched. -/
theorem take_action_all_illegal (slide : SlideFn) (a : WeightAgent) (before : Board)
    (h : ∀ op, op < 4 → moveR slide before op = -1) :
    take_action slide a before = (nullAction, a, before) := by
  have h0 := h 0 (by omega)
  have h1 := h 1 (by omega)
  have h2 := h 2 (by omega)
  have h3 := h 3 (by omega)
  simp only [moveR] at h0 h1 h2 h3
  simp [take_action, selLoop, List.foldl, selStep, h0, h1, h2, h3, initSel, nullAction]

/-- Witness for C1 at a concrete input: a length-1 trajectory, α = 1. -/
theorem close_episode_td_witness :
    (([dB] : List Board) ≠ []) ∧ ((1 : ℚ) ≠ 0) ∧
    ([(5 : ℤ)].length = ([dB] : List Board).length) ∧
    ((close_episode ⟨[], 1, [5], [dB]⟩).net =
        specLearn 1 [] ([(5 : ℤ)].zip [dB]) ∧
      ∀ b, ([dB] : List Board) = [b] →
        (close_episode ⟨[], 1, [5], [dB]⟩).net = adjust_table 1 [] b 0) :=
  ⟨by simp, by norm_num, rfl,
   close_episode_td ⟨[], 1, [5], [dB]⟩ (by simp) (by norm_num) rfl⟩

/-- C9: `reward_history` and `board_history` stay in lock-step:
`open_episode` clears both, `close_episode` touches neither, and
`take_action` appends exactly one element to each or to neither, so equal
lengths are preserved by every operation. -/
theorem histories_invariant (slide : SlideFn) (a : WeightAgent) (before : Board)
    (h : a.reward_history.length = a.board_history.length) :
    (open_episode a).reward_history = [] ∧ (open_episode a).board_history = [] ∧
    (close_episode a).reward_history = a.reward_history ∧
    (close_episode a).board_history = a.board_history ∧
    ((∃ r brd,
        ((take_action slide a before).2.1).reward_history = a.reward_history ++ [r] ∧
        ((take_action slide a before).2.1).board_history = a.board_history ++ [brd]) ∨
      (((take_action slide a before).2.1).reward_history = a.reward_history ∧
        ((take_action slide a before).2.1).board_history = a.board_history)) ∧
    ((take_action slide a before).2.1).reward_history.length =
      ((take_action slide a before).2.1).board_history.length := by
  have hclose : (close_episode a).reward_history = a.reward_history ∧
      (close_episode a).board_history = a.board_history := by
    unfold close_episode
    split_ifs <;> simp
  have hta : (∃ r brd,
        ((take_action slide a before).2.1).reward_history = a.reward_history ++ [r] ∧
        ((take_action slide a before).2.1).board_history = a.board_history ++ [brd]) ∨
      (((take_action slide a before).2.1).reward_history = a.reward_history ∧
        ((take_action slide a before).2.1).board_history = a.board_history) := by
    unfold take_action
    dsimp only
    split
    · exact Or.inl ⟨_, _, rfl, rfl⟩
    · exact Or.inr ⟨rfl, rfl⟩
  refine ⟨rfl, rfl, hclose.1, hclose.2, hta, ?_⟩
  rcases hta with ⟨r, brd, h1, h2⟩ | ⟨h1, h2⟩ <;> simp [h1, h2, h]

/-- Witness for C9 at a concrete input. -/
theorem histories_invariant_witness :
    (([] : List ℤ).length = ([] : List Board).length) ∧
    ((open_episode ⟨[], 0, [], []⟩).reward_history = [] ∧
      (open_episode ⟨[], 0, [], []⟩).board_history = [] ∧
      (close_episode ⟨[], 0, [], []⟩).reward_history = [] ∧
      (close_episode ⟨[], 0, [], []⟩).board_history = [] ∧
      ((∃ r brd,
          ((take_action (fun _ _ => (-1, dB)) ⟨[], 0, [], []⟩ dB).2.1).reward_history =
            [] ++ [r] ∧
          ((take_action (fun _ _ => (-1, dB)) ⟨[], 0, [], []⟩ dB).2.1).board_history =
            [] ++ [brd]) ∨
        (((take_action (fun _ _ => (-1, dB)) ⟨[], 0, [], []⟩ dB).2.1).reward_history = [] ∧
          ((take_action (fun _ _ => (-1, dB)) ⟨[], 0, [], []⟩ dB).2.1).board_history = [])) ∧
      ((take_action (fun _ _ => (-1, dB)) ⟨[], 0, [], []⟩ dB).2.1).reward_history.length =
        ((take_action (fun _ _ => (-1, dB)) ⟨[], 0, [], []⟩ dB).2.1).board_history.length) :=
  ⟨rfl, histories_invariant (fun _ _ => (-1, dB)) ⟨[], 0, [], []⟩ dB rfl⟩

/-- C2: one adjustment step computes a single shared delta
`α * (target − v_value net b)` from the whole-board error and adds exactly
that delta to each of the 8 entries addressed by `b`'s feature indices
(the terminal update is the instance `target = 0`). -/
theorem adjust_table_uniform_delta (α : ℚ) (net : Net) (b : Board) (target : ℚ)
    (h8 : 8 ≤ net.length) (i : Nat) (hi : i < 8) :
    (wAt (adjust_table α net b target) i).data (featIndex (tuples.getD i []) b) =
      (wAt net i).data (featIndex (tuples.getD i []) b) +
        α * (target - v_value net b) := by
  interval_cases i <;>
    (simp only [adjust_table]
     simp [wAt_setBump_ne, wAt_setBump_self8, length_setBump, h8, bumpAt, featIndex, tuples]
     exact fun h => absurd (by ring) h)

/-- Witness for C2 at a concrete input (8 fresh tables, zero board). -/
theorem adjust_table_uniform_delta_witness :
    8 ≤ (List.replicate 8 (newWeight 390625) : Net).length ∧ (0 : ℕ) < 8 ∧
    (wAt (adjust_table 1 (List.replicate 8 (newWeight 390625)) dB 3) 0).data
        (featIndex (tuples.getD 0 []) dB) =
      (wAt (List.replicate 8 (newWeight 390625)) 0).data (featIndex (tuples.getD 0 []) dB) +
        1 * (3 - v_value (List.replicate 8 (newWeight 390625)) dB) :=
  ⟨by simp, by omega,
   adjust_table_uniform_delta 1 (List.replicate 8 (newWeight 390625)) dB 3 (by simp) 0
     (by omega)⟩

theorem selInv_step (slide : SlideFn) (net : Net) (before : Board)
    (hth : ∀ op, op < 4 → legalMove slide before op →
      (-1 : ℚ) - fltMax < moveScore slide net before op)
    (k : Nat) (hk : k < 4) (s : Sel) (h : selInv slide net before k s) :
    selInv slide net before (k + 1) (selStep slide net before s k) := by
  unfold selStep
  dsimp only
  rcases h with ⟨hb, hr, hv, hnone⟩ | ⟨m, hm, hleg, hb, hr, hv, hnb, hlt, hle⟩
  · split_ifs with hrk hcmp
    · refine Or.inl ⟨hb, hr, hv, ?_⟩
      intro op hop
      have hop' : op < k ∨ op = k := by omega
      rcases hop' with h' | h'
      · exact hnone op h'
      · subst h'
        simp [legalMove, moveR, hrk]
    · have hlegk : legalMove slide before k := by simp [legalMove, moveR, hrk]
      refine Or.inr ⟨k, by omega, hlegk, rfl, rfl, rfl, rfl, ?_, ?_⟩
      · intro op hop hlegop
        exact absurd hlegop (hnone op hop)
      · intro op h1 h2 _
        omega
    · -- with no prior best, a legal move always beats the sentinel start
      exfalso
      have hlegk : legalMove slide before k := by simp [legalMove, moveR, hrk]
      have hsc := hth k hk hlegk
      unfold moveScore moveR moveB at hsc
      rw [hr, hv] at hcmp
      push_cast at hcmp hsc
      unfold fltMax at hcmp hsc
      linarith
  · have hscm : ((s.max_reward : ℤ) : ℚ) + s.max_val = moveScore slide net before m := by
      rw [hr, hv]
      unfold moveScore
      rfl
    split_ifs with hrk hcmp
    · refine Or.inr ⟨m, by omega, hleg, hb, hr, hv, hnb, hlt, ?_⟩
      intro op h1 h2 hlegop
      have h2' : op < k ∨ op = k := by omega
      rcases h2' with h' | h'
      · exact hle op h1 h' hlegop
      · subst h'
        exact absurd hlegop (by simp [legalMove, moveR, hrk])
    · have hlegk : legalMove slide before k := by simp [legalMove, moveR, hrk]
      have hck : moveScore slide net before m < moveScore slide net before k := by
        rw [← hscm]
        unfold moveScore moveR moveB
        push_cast at hcmp
        linarith
      refine Or.inr ⟨k, by omega, hlegk, rfl, rfl, rfl, rfl, ?_, ?_⟩
      · intro op hop hlegop
        have hop' : op < m ∨ op = m ∨ (m < op ∧ op < k) := by omega
        rcases hop' with h' | h' | ⟨h1, h2⟩
        · exact lt_trans (hlt op h' hlegop) hck
        · subst h'
          exact hck
        · exact lt_of_le_of_lt (hle op h1 h2 hlegop) hck
      · intro op h1 h2 _
        omega
    · have hlegk : legalMove slide before k := by simp [legalMove, moveR, hrk]
      refine Or.inr ⟨m, by omega, hleg, hb, hr, hv, hnb, hlt, ?_⟩
      intro op h1 h2 hlegop
      have h2' : op < k ∨ op = k := by omega
      rcases h2' with h' | h'
      · exact hle op h1 h' hlegop
      · subst h'
        rw [← hscm]
        unfold moveScore moveR moveB
        linarith

/-- C4 (amended): provided every legal direction's score exceeds the
initial sentinel `-1 - FLT_MAX`, and some direction is legal,
`take_action` returns the legal direction of strictly greatest
reward-plus-value, the earlier-evaluated direction winning exact ties; in
particular a unique legal direction is chosen regardless of its value. -/
theorem take_action_argmax (slide : SlideFn) (a : WeightAgent) (before : Board)
    (hsome : ∃ op, op < 4 ∧ legalMove slide before op)
    (hth : ∀ op, op < 4 → legalMove slide before op →
      (-1 : ℚ) - fltMax < moveScore slide a.net before op) :
    ∃ m, m < 4 ∧ legalMove slide before m ∧
      (take_action slide a before).1 = GameAction.slide (m : ℤ) ∧
      (∀ op, op < m → legalMove slide before op →
        moveScore slide a.net before op < moveScore slide a.net before m) ∧
      (∀ op, m < op → op < 4 → legalMove slide before op →
        moveScore slide a.net before op ≤ moveScore slide a.net before m) ∧
      (∀ u, u < 4 → legalMove slide before u →
        (∀ op, op < 4 → legalMove slide before op → op = u) →
        (take_action slide a before).1 = GameAction.slide (u : ℤ)) := by
  have h0 : selInv slide a.net before 0 initSel :=
    Or.inl ⟨rfl, rfl, rfl, fun op h => absurd h (by omega)⟩
  have h1 := selInv_step slide a.net before hth 0 (by omega) initSel h0
  have h2 := selInv_step slide a.net before hth 1 (by omega) _ h1
  have h3 := selInv_step slide a.net before hth 2 (by omega) _ h2
  have h4 := selInv_step slide a.net before hth 3 (by omega) _ h3
  have h4' : selInv slide a.net before 4 (selLoop slide a.net before initSel [0, 1, 2, 3]) :=
    h4
  rcases h4' with ⟨hb, _, _, hnone⟩ | ⟨m, hm, hleg, hb, hr, hv, hnb, hlt, hle⟩
  · obtain ⟨op, hop, hlegop⟩ := hsome
    exact absurd hlegop (hnone op hop)
  · have haction : (take_action slide a before).1 =
        GameAction.slide (selLoop slide a.net before initSel [0, 1, 2, 3]).best_move := by
      unfold take_action
      dsimp only
      split <;> rfl
    refine ⟨m, hm, hleg, ?_, hlt, ?_, ?_⟩
    · rw [haction, hb]
    · intro op hmo ho4 hlegop
      exact hle op hmo ho4 hlegop
    · intro u hu hlegu huniq
      have hmu : m = u := huniq m hm hleg
      rw [haction, hb, hmu]

/-- C4 counterexample to the unamended claim: one legal direction exists,
but its score is below the `-FLT_MAX` initialization of `max_val`, so
`take_action` returns the null `slide(-1)` instead of that direction. -/
theorem take_action_argmax_counterexample :
    legalMove c4Slide dB 0 ∧ (0 : ℕ) < 4 ∧
    (take_action c4Slide ⟨c4Net, 0, [], []⟩ dB).1 = GameAction.slide (-1) ∧
    (take_action c4Slide ⟨c4Net, 0, [], []⟩ dB).1 ≠ GameAction.slide ((0 : ℕ) : ℤ) ∧
    ((take_action c4Slide ⟨c4Net, 0, [], []⟩ dB).2.1).board_history = [] := by
  have hv : v_value c4Net dB = 8 * -(2 ^ 128 : ℚ) := by
    norm_num [v_value, c4Net, wAt, dB, List.replicate]
  have hstep0 : selStep c4Slide c4Net dB initSel 0 = initSel := by
    unfold selStep
    norm_num [c4Slide, hv, initSel, fltMax]
  have hstep : ∀ (s : Sel) (op : Nat), op ≠ 0 → selStep c4Slide c4Net dB s op = s := by
    intro s op h
    unfold selStep
    norm_num [c4Slide, h]
  have hsel : selLoop c4Slide c4Net dB initSel [0, 1, 2, 3] = initSel := by
    simp [selLoop, List.foldl_cons, List.foldl_nil, hstep0, hstep]
  have hta : take_action c4Slide ⟨c4Net, 0, [], []⟩ dB =
      (GameAction.slide (-1), ⟨c4Net, 0, [], []⟩, dB) := by
    unfold take_action
    dsimp only
    rw [hsel]
    norm_num [initSel]
  refine ⟨by decide, by omega, ?_, ?_, ?_⟩ <;> (rw [hta]; try simp)

/-- Witness for the amended C4 at a concrete input. -/
theorem take_action_argmax_witness :
    (∃ op, op < 4 ∧ legalMove w4Slide dB op) ∧
    (∀ op, op < 4 → legalMove w4Slide dB op →
      (-1 : ℚ) - fltMax < moveScore w4Slide ([] : Net) dB op) ∧
    (∃ m, m < 4 ∧ legalMove w4Slide dB m ∧
      (take_action w4Slide ⟨[], 0, [], []⟩ dB).1 = GameAction.slide (m : ℤ) ∧
      (∀ op, op < m → legalMove w4Slide dB op →
        moveScore w4Slide ([] : Net) dB op < moveScore w4Slide ([] : Net) dB m) ∧
      (∀ op, m < op → op < 4 → legalMove w4Slide dB op →
        moveScore w4Slide ([] : Net) dB op ≤ moveScore w4Slide ([] : Net) dB m) ∧
      (∀ u, u < 4 → legalMove w4Slide dB u →
        (∀ op, op < 4 → legalMove w4Slide dB op → op = u) →
        (take_action w4Slide ⟨[], 0, [], []⟩ dB).1 = GameAction.slide (u : ℤ))) := by
  have hth : ∀ op, op < 4 → legalMove w4Slide dB op →
      (-1 : ℚ) - fltMax < moveScore w4Slide ([] : Net) dB op := by
    intro op h1 h2
    interval_cases op
    · norm_num [moveScore, moveR, moveB, w4Slide, v_value, wAt, w0, fltMax]
    · exact absurd h2 (by decide)
    · exact absurd h2 (by decide)
    · exact absurd h2 (by decide)
  exact ⟨⟨0, by omega, by decide⟩, hth,
    take_action_argmax w4Slide ⟨[], 0, [], []⟩ dB ⟨0, by omega, by decide⟩ hth⟩

/-- C8: the round-trip through persistence preserves evaluation: for a
store whose tables all have the regular size 25⁴ and any board with legal
ranks (< 25), loading what was saved yields the same `v_value` on every
board. -/
theorem save_load_roundtrip (net : Net) (b : Board)
    (hsz : ∀ w ∈ net, w.size = 390625) (hb : ∀ i, i < 16 → b i < 25) :
    v_value (load_weights (save_weights net)) b = v_value net b := by
  have hAt : ∀ (i idx : Nat), idx < 390625 →
      (wAt (load_weights (save_weights net)) i).data idx = (wAt net i).data idx := by
    intro i idx hidx
    by_cases hi : i < net.length
    · have h1 : (load_weights (save_weights net))[i]? =
          some (deserWeight (serWeight net[i])) := by
        simp [load_weights, save_weights, List.getElem?_map, List.getElem?_range, hi,
          List.getD_eq_getElem?_getD, List.getElem?_eq_getElem hi]
      have h2 : (wAt net i) = net[i] := by
        simp [wAt, List.getElem?_eq_getElem hi]
      have hsize : net[i].size = 390625 := hsz _ (List.getElem_mem hi)
      rw [wAt, h1, h2]
      simp only [Option.getD_some]
      simp [deserWeight, serWeight, List.getD_eq_getElem?_getD, List.getElem?_map,
        List.getElem?_range, hsize, hidx]
    · have hlen : (load_weights (save_weights net)).length = net.length := by
        simp [load_weights, save_weights]
      have h1 : (load_weights (save_weights net))[i]? = none :=
        List.getElem?_eq_none (by omega)
      have h2 : (net[i]? : Option Weight) = none := List.getElem?_eq_none (by omega)
      rw [wAt, wAt, h1, h2]
  have g0 := hb 0 (by omega)
  have g1 := hb 1 (by omega)
  have g2 := hb 2 (by omega)
  have g3 := hb 3 (by omega)
  have g4 := hb 4 (by omega)
  have g5 := hb 5 (by omega)
  have g6 := hb 6 (by omega)
  have g7 := hb 7 (by omega)
  have g8 := hb 8 (by omega)
  have g9 := hb 9 (by omega)
  have g10 := hb 10 (by omega)
  have g11 := hb 11 (by omega)
  have g12 := hb 12 (by omega)
  have g13 := hb 13 (by omega)
  have g14 := hb 14 (by omega)
  have g15 := hb 15 (by omega)
  unfold v_value
  rw [hAt 0 (b 0 * 25 * 25 * 25 + b 1 * 25 * 25 + b 2 * 25 + b 3) (by omega),
    hAt 1 (b 4 * 25 * 25 * 25 + b 5 * 25 * 25 + b 6 * 25 + b 7) (by omega),
    hAt 2 (b 8 * 25 * 25 * 25 + b 9 * 25 * 25 + b 10 * 25 + b 11) (by omega),
    hAt 3 (b 12 * 25 * 25 * 25 + b 13 * 25 * 25 + b 14 * 25 + b 15) (by omega),
    hAt 4 (b 0 * 25 * 25 * 25 + b 4 * 25 * 25 + b 8 * 25 + b 12) (by omega),
    hAt 5 (b 1 * 25 * 25 * 25 + b 5 * 25 * 25 + b 9 * 25 + b 13) (by omega),
    hAt 6 (b 2 * 25 * 25 * 25 + b 6 * 25 * 25 + b 10 * 25 + b 14) (by omega),
    hAt 7 (b 3 * 25 * 25 * 25 + b 7 * 25 * 25 + b 11 * 25 + b 15) (by omega)]

/-- Witness for C8 at a concrete input (8 fresh tables, zero board). -/
theorem save_load_roundtrip_witness :
    (∀ w ∈ (List.replicate 8 (newWeight 390625) : Net), w.size = 390625) ∧
    (∀ i, i < 16 → dB i < 25) ∧
    v_value (load_weights (save_weights (List.replicate 8 (newWeight 390625)))) dB =
      v_value (List.replicate 8 (newWeight 390625)) dB :=
  ⟨fun w hw => by
      rw [List.eq_of_mem_replicate hw]
      rfl,
   fun i _ => by norm_num [dB],
   save_load_roundtrip (List.replicate 8 (newWeight 390625)) dB
     (fun w hw => by
       rw [List.eq_of_mem_replicate hw]
       rfl)
     (fun i _ => by norm_num [dB])⟩

/-- Witness for C5 at a concrete input: the everywhere-illegal slide. -/
theorem take_action_all_illegal_witness :
    (∀ op, op < 4 → moveR (fun _ _ => (-1, dB)) dB op = -1) ∧
    take_action (fun _ _ => (-1, dB)) ⟨[], 0, [], []⟩ dB =
      (nullAction, ⟨[], 0, [], []⟩, dB) :=
  ⟨fun _ _ => rfl,
   take_action_all_illegal (fun _ _ => (-1, dB)) ⟨[], 0, [], []⟩ dB (fun _ _ => rfl)⟩

end TCG2584
